import Mathlib

/-!
Shallow embedding of the bongcloud chess engine core
(src/game_state.rs, src/game_move.rs, src/fen.rs, src/bits/utils.rs,
src/bits/masks.rs), together with theorems settling the specification
claims about the make algorithm, the history stack, the occupancy
invariant and the textual (FEN) codec.

Machine integers are modelled as `Nat`:
  - a `u64` bitboard is a `Nat` whose bits 0..63 are meaningful
    (set/clear always go through the 64-bit masks, as in the source);
  - the `u16` move word is reduced mod 2^16 in the field extractors;
  - arithmetic that can panic in Rust (debug overflow of the `u8`
    half-move clock and `u32` full-move clock, `u8` underflow of
    en-passant arithmetic, out-of-bounds array indexing) is modelled by
    `Option`: a panicking execution of `make` or of the parser is `none`.
-/

set_option maxRecDepth 10000

namespace Bongcloud

/-- Piece type index into GameState's bitboards arrays (game_state.rs). -/
inductive Piece where
  | WhitePawn
  | WhiteBishop
  | WhiteKnight
  | WhiteRook
  | WhiteQueen
  | WhiteKing
  | BlackPawn
  | BlackBishop
  | BlackKnight
  | BlackRook
  | BlackQueen
  | BlackKing
  | Null
deriving DecidableEq, Fintype

/-- The move types of game_move.rs (enum MoveType). -/
inductive MoveType where
  | NullMove
  | Quiet
  | DoublePawnPush
  | KingCastle
  | QueenCastle
  | Capture
  | EpCapture
  | KnightPromo
  | BishopPromo
  | RookPromo
  | QueenPromo
  | KnightPromoCapture
  | BishopPromoCapture
  | RookPromoCapture
  | QueenPromoCapture
deriving DecidableEq

/-- Discriminant values of MoveType (game_move.rs, `#[repr(u16)]`). -/
def MoveType.code : MoveType → Nat
  | .NullMove => 6
  | .Quiet => 0
  | .DoublePawnPush => 1
  | .KingCastle => 2
  | .QueenCastle => 3
  | .Capture => 4
  | .EpCapture => 5
  | .KnightPromo => 8
  | .BishopPromo => 9
  | .RookPromo => 10
  | .QueenPromo => 11
  | .KnightPromoCapture => 12
  | .BishopPromoCapture => 13
  | .RookPromoCapture => 14
  | .QueenPromoCapture => 15

/-- The METADATA_TO_MOVETYPE table of game_move.rs: index 0..15 to move
type.  Indices outside 0..15 never occur (the index is masked with 15);
the catch-all branch is junk needed only for totality. -/
def metadataToMovetype : Nat → MoveType
  | 0 => .Quiet
  | 1 => .DoublePawnPush
  | 2 => .KingCastle
  | 3 => .QueenCastle
  | 4 => .Capture
  | 5 => .EpCapture
  | 6 => .NullMove
  | 7 => .NullMove
  | 8 => .KnightPromo
  | 9 => .BishopPromo
  | 10 => .RookPromo
  | 11 => .QueenPromo
  | 12 => .KnightPromoCapture
  | 13 => .BishopPromoCapture
  | 14 => .RookPromoCapture
  | 15 => .QueenPromoCapture
  | _ => .NullMove

/-- A move: a 16-bit word `data` packing from-square (bits 15..10),
to-square (bits 9..4) and a 4-bit move-type code (bits 3..0)
(struct GameMove, game_move.rs).  `data` is a `Nat` standing for the
`u16`; the extractors reduce it mod 2^16 where the high bits matter. -/
structure GameMove where
  data : Nat

namespace GameMove

/-- GameMove::new (game_move.rs): pack fromsquare, tosquare, move type. -/
def new (fromsquare tosquare : Nat) (mt : MoveType) : GameMove :=
  ⟨((((0 ||| fromsquare) <<< 6) ||| tosquare) <<< 4) ||| mt.code⟩

/-- GameMove::fromsquare: `(data >> 10) as u8` on the 16-bit word. -/
def fromsquare (m : GameMove) : Nat :=
  (m.data % 65536) >>> 10

/-- GameMove::tosquare: `(data >> 4 & LSB6_BITMASK) as u8`. -/
def tosquare (m : GameMove) : Nat :=
  ((m.data % 65536) >>> 4) &&& 63

/-- GameMove::move_type: `METADATA_TO_MOVETYPE[(LSB4_BITMASK & data)]`. -/
def moveType (m : GameMove) : MoveType :=
  metadataToMovetype (15 &&& m.data % 65536)

/-- GameMove::is_capture: `IS_CAPTURE_MASK & data != 0`. -/
def isCapture (m : GameMove) : Bool :=
  4 &&& m.data % 65536 != 0

/-- GameMove::is_promo: `IS_PROMO_MASK & data != 0`. -/
def isPromo (m : GameMove) : Bool :=
  8 &&& m.data % 65536 != 0

/-- GameMove::promo_piece (game_move.rs): none when not a promotion,
otherwise the side-appropriate piece selected by the 2 low bits. -/
def promoPiece (m : GameMove) (white_to_move : Bool) : Option Piece :=
  if !m.isPromo then none
  else match m.data % 65536 &&& 3 with
    | 0 => some (if white_to_move then Piece.WhiteKnight else Piece.BlackKnight)
    | 1 => some (if white_to_move then Piece.WhiteBishop else Piece.BlackBishop)
    | 2 => some (if white_to_move then Piece.WhiteRook else Piece.BlackRook)
    | 3 => some (if white_to_move then Piece.WhiteQueen else Piece.BlackQueen)
    | _ => none

end GameMove

/-- Pointwise update of a function, standing for a Rust array-slot
assignment. -/
def updFn {α : Type} {β : Type} [DecidableEq α] (f : α → β) (a : α) (b : β) : α → β :=
  fun x => if x = a then b else f x

/-- The state of the board plus game metadata (struct GameState,
game_state.rs).  `bbs` is the 12-entry occupancy-bitboard array indexed
by piece (the `Null` entry is never read or written); `occupancy` is the
64-entry square-to-piece reverse index (struct PieceBitBoards), total
over `Nat` with every in-source access at a square below 64. -/
structure GameState where
  bbs : Piece → Nat
  white_to_move : Bool
  ep_square : Option Nat
  halfmove_clock : Nat
  fullmove_clock : Nat
  castlerights : Fin 4 → Bool
  occupancy : Nat → Piece

namespace GameState

/-- GameState::new_empty: empty bitboards, white to move, no ep square,
zero half-move clock, full-move clock 1, full castle rights. -/
def new_empty : GameState :=
  { bbs := fun _ => 0
    white_to_move := true
    ep_square := none
    halfmove_clock := 0
    fullmove_clock := 1
    castlerights := fun _ => true
    occupancy := fun _ => Piece.Null }

/-- GameState::new: build a state from the given fields; the occupancy
reverse index starts empty (`PieceBitBoards::new()`), exactly as in the
source. -/
def new (bbs : Piece → Nat) (white_to_move : Bool) (ep_square : Option Nat)
    (halfmove_clock : Nat) (fullmove_clock : Nat) (castlerights : Fin 4 → Bool) :
    GameState :=
  { bbs := bbs
    white_to_move := white_to_move
    ep_square := ep_square
    halfmove_clock := halfmove_clock
    fullmove_clock := fullmove_clock
    castlerights := castlerights
    occupancy := fun _ => Piece.Null }

/-- GameState::occupying_piece via PieceBitBoards::get: the reverse-index
entry, with the Null sentinel reported as `none`. -/
def occupying_piece (st : GameState) (sq : Nat) : Option Piece :=
  match st.occupancy sq with
  | Piece.Null => none
  | p => some p

/-- GameState::add_piece: store the piece in the reverse index and OR the
square's single-bit mask (masks::SQUARES[sq] = 1 << sq) into the piece's
bitboard. -/
def add_piece (st : GameState) (p : Piece) (sq : Nat) : GameState :=
  { st with
    occupancy := updFn st.occupancy sq p
    bbs := updFn st.bbs p (st.bbs p ||| 2 ^ sq) }

/-- GameState::remove_piece: look up the occupant; when present, clear
the reverse-index entry and AND the piece's bitboard with the u64
complement of the square mask.  Returns the removed piece (if any)
together with the updated state. -/
def remove_piece (st : GameState) (sq : Nat) : Option Piece × GameState :=
  match st.occupying_piece sq with
  | none => (none, st)
  | some p =>
      (some p,
        { st with
          occupancy := updFn st.occupancy sq Piece.Null
          bbs := updFn st.bbs p (st.bbs p &&& ((2 ^ 64 - 1) ^^^ 2 ^ sq)) })

/-- GameState::promote_piece: remove whatever is on the square, then add
the new piece there. -/
def promote_piece (st : GameState) (sq : Nat) (new_piece : Piece) : GameState :=
  (st.remove_piece sq).2.add_piece new_piece sq

end GameState

/-- Increment of the u8 half-move clock; `none` models the Rust debug
overflow panic. -/
def incU8 (n : Nat) : Option Nat :=
  if n + 1 < 256 then some (n + 1) else none

/-- Increment of the u32 full-move clock; `none` models the Rust debug
overflow panic. -/
def incU32 (n : Nat) : Option Nat :=
  if n + 1 < 2 ^ 32 then some (n + 1) else none

/-- King home square in the castling branch of make: 4 for white, 60 for
black. -/
def castleKingFrom (w : Bool) : Nat := if w then 4 else 60

/-- King destination in the castling branch of make (the `king_to_sq`
match; the 100 default is the source's unreachable catch-all). -/
def castleKingTo (mt : MoveType) (w : Bool) : Nat :=
  match mt, w with
  | .QueenCastle, true => 2
  | .KingCastle, true => 6
  | .QueenCastle, false => 58
  | .KingCastle, false => 62
  | _, _ => 100

/-- Rook home square in the castling branch of make. -/
def castleRookFrom (mt : MoveType) (w : Bool) : Nat :=
  match mt, w with
  | .QueenCastle, true => 0
  | .KingCastle, true => 7
  | .QueenCastle, false => 56
  | .KingCastle, false => 63
  | _, _ => 100

/-- Rook destination in the castling branch of make. -/
def castleRookTo (mt : MoveType) (w : Bool) : Nat :=
  match mt, w with
  | .QueenCastle, true => 3
  | .KingCastle, true => 5
  | .QueenCastle, false => 59
  | .KingCastle, false => 61
  | _, _ => 100

/-- The castling king piece of the side to move. -/
def castleKingPiece (w : Bool) : Piece := if w then Piece.WhiteKing else Piece.BlackKing

/-- The castling rook piece of the side to move. -/
def castleRookPiece (w : Bool) : Piece := if w then Piece.WhiteRook else Piece.BlackRook

/-- The castling-rights index base of the side to move
(`castle_color_flag`): 0 for white, 2 for black. -/
def castleColorFlag (w : Bool) : Fin 4 := if w then 0 else 2

/-- The intermediate state of the castling branch after the king has
been lifted from its home square. -/
def castleS1 (st : GameState) : GameState :=
  (st.remove_piece (castleKingFrom st.white_to_move)).2

/-- The intermediate state of the castling branch after the king has
also landed on its destination. -/
def castleS2 (st : GameState) (m : GameMove) : GameState :=
  (castleS1 st).add_piece (castleKingPiece st.white_to_move)
    (castleKingTo m.moveType st.white_to_move)

/-- The intermediate state of the castling branch after the rook has
been lifted from its home square. -/
def castleS3 (st : GameState) (m : GameMove) : GameState :=
  ((castleS2 st m).remove_piece (castleRookFrom m.moveType st.white_to_move)).2

/-- The intermediate state of the castling branch after the rook has
also landed: all four piece relocations done. -/
def castleS4 (st : GameState) (m : GameMove) : GameState :=
  (castleS3 st m).add_piece (castleRookPiece st.white_to_move)
    (castleRookTo m.moveType st.white_to_move)

/-- The castle-rights fix-up at the end of the non-castling branch of
make (game_state.rs lines 257-268), verbatim: the guard reads flag
`castle_color_flag + 1` twice, and the four rook-home cases clear the
flags exactly as the source does. -/
def rookFix (cr : Fin 4 → Bool) (w : Bool) (moving : Piece) (fromsq : Nat) :
    Fin 4 → Bool :=
  let cf : Fin 4 := castleColorFlag w
  let has_castlerights := cr (cf + 1) || cr (cf + 1)
  if has_castlerights && (moving = Piece.WhiteRook || moving = Piece.BlackRook) then
    match moving, fromsq with
    | Piece.WhiteRook, 0 => updFn cr 0 false
    | Piece.WhiteRook, 7 => updFn cr 1 false
    | Piece.BlackRook, 63 => updFn cr 3 false
    | Piece.BlackRook, 56 => updFn cr 3 false
    | _, _ => cr
  else cr

namespace GameState

/-- Board-plus-rights part of the castling branch of make: king and rook
relocated, both castle-rights flags of the moving side cleared, side to
move flipped.  The clocks are filled in by `make` itself (their updates
can panic). -/
def castleBoard (st : GameState) (m : GameMove) : GameState :=
  let cf : Fin 4 := castleColorFlag st.white_to_move
  { castleS4 st m with
    castlerights := updFn (updFn (castleS4 st m).castlerights cf false) (cf + 1) false
    white_to_move := !st.white_to_move }

/-- Captured square of an en-passant capture: the current en-passant
target shifted by +8 (white to move) or -8 (black to move); `none`
models the unwrap panic when no target exists and the u8 underflow panic
when the target is below 8 with black to move (game_state.rs lines
224-229). -/
def epCapSq (st : GameState) : Option Nat :=
  match st.ep_square with
  | none => none
  | some ep =>
      if st.white_to_move then some (ep + 8)
      else if 8 ≤ ep then some (ep - 8) else none

/-- The captured square of the capture step: the to-square, or the
shifted en-passant target for an en-passant capture. -/
def capSqOf (st : GameState) (m : GameMove) : Option Nat :=
  if m.moveType = MoveType.EpCapture then st.epCapSq else some m.tosquare

/-- The capture step of make (game_state.rs lines 222-232): when the move
is a capture, remove the occupant of the captured square.  `none`
models the panics: missing en-passant target, u8 underflow, and the
out-of-bounds array access when the captured square is 64 or above. -/
def makeStage1 (st : GameState) (m : GameMove) : Option GameState :=
  if m.isCapture then do
    let capSq ← st.capSqOf m
    if capSq < 64 then some (st.remove_piece capSq).2 else none
  else some st

/-- The promotion step of make (game_state.rs lines 242-247), applied to
the board after the piece has moved. -/
def promoStep (st : GameState) (m : GameMove) (s3 : GameState) : Option GameState :=
  if m.isPromo then
    match m.promoPiece st.white_to_move with
    | none => none
    | some pp => some (s3.promote_piece m.tosquare pp)
  else some s3

/-- The en-passant-target recomputation of make (game_state.rs lines
250-252): none unless the move is a double pawn push, else the square
behind the destination; `none` (outer) models the u8 underflow panic. -/
def epStep (st : GameState) (m : GameMove) : Option (Option Nat) :=
  if m.moveType = MoveType.DoublePawnPush then
    if st.white_to_move then
      if 8 ≤ m.tosquare then some (some (m.tosquare - 8)) else none
    else some (some (m.tosquare + 8))
  else some none

/-- The full-move-clock step of make: increment exactly when black is to
move; `none` models the u32 overflow panic. -/
def fullmoveStep (st : GameState) : Option Nat :=
  if !st.white_to_move then incU32 st.fullmove_clock else some st.fullmove_clock

/-- The half-move-clock step of make: 0 when marked for reset, else the
previous value plus one; `none` models the u8 overflow panic. -/
def halfmoveStep (st : GameState) (reset : Bool) : Option Nat :=
  if reset then some 0 else incU8 st.halfmove_clock

/-- GameState::make (game_state.rs lines 162-271), translated clause by
clause; `none` is a panicking execution (empty source square, en-passant
unwrap/underflow, clock overflow, out-of-bounds captured square). -/
def make (st : GameState) (m : GameMove) : Option GameState :=
  let mt := m.moveType
  if mt = MoveType.QueenCastle ∨ mt = MoveType.KingCastle then do
    let s := st.castleBoard m
    let full ← fullmoveStep st
    let half ← incU8 st.halfmove_clock
    some { s with fullmove_clock := full, halfmove_clock := half }
  else
    match st.occupying_piece m.fromsquare with
    | none => none
    | some moving => do
        let s1 ← makeStage1 st m
        let s2 := (s1.remove_piece m.fromsquare).2
        let s3 := s2.add_piece moving m.tosquare
        let reset := m.isCapture || (moving = Piece.WhitePawn || moving = Piece.BlackPawn)
        let s4 ← promoStep st m s3
        let ep ← epStep st m
        let full ← fullmoveStep st
        let half ← halfmoveStep st reset
        some { s4 with
          ep_square := ep
          white_to_move := !st.white_to_move
          fullmove_clock := full
          halfmove_clock := half
          castlerights := rookFix s4.castlerights st.white_to_move moving m.fromsquare }

end GameState

/-- Maximum history-stack depth (MAX_MOVESTACK_DEPTH, game_state.rs). -/
def MAX_MOVESTACK_DEPTH : Nat := 100

/-- The history stack of game states (struct StateStack, game_state.rs):
a fixed 100-slot array of optional states plus a size.  The array is
modelled as a total function whose in-source accesses are all below
`MAX_MOVESTACK_DEPTH`; an out-of-bounds access is a panic, modelled as
`none` in the operations below. -/
structure StateStack where
  backing : Nat → Option GameState
  size : Nat

namespace StateStack

/-- StateStack::new: empty backing array, size 0. -/
def new : StateStack :=
  { backing := fun _ => none, size := 0 }

/-- StateStack::push: write the element at index `size` and increment
`size`; `none` models the index panic on a full stack. -/
def push (st : StateStack) (elt : GameState) : Option StateStack :=
  if st.size < MAX_MOVESTACK_DEPTH then
    some { backing := updFn st.backing st.size (some elt), size := st.size + 1 }
  else none

/-- StateStack::peek: the element at index `size - 1`, or `none` when
empty. -/
def peek (st : StateStack) : Option GameState :=
  if st.size ≤ 0 then none else st.backing (st.size - 1)

/-- StateStack::pop (game_state.rs lines 346-354): `None` when empty;
otherwise swap a `None` with the slot at index `size` — note: `size`,
not `size - 1` — decrement `size`, and return the swapped-out value.
The outer `none` models the index panic when `size` is at least 100. -/
def pop (st : StateStack) : Option (Option GameState × StateStack) :=
  if st.size ≤ 0 then some (none, st)
  else if st.size < MAX_MOVESTACK_DEPTH then
    some (st.backing st.size,
      { backing := updFn st.backing st.size none, size := st.size - 1 })
  else none

end StateStack

/-! ## The textual (FEN) codec, src/fen.rs.

Strings are modelled as lists of characters; `String.toList` mediates at
the concrete witnesses. -/

/-- The FEN_PIECES character-to-piece table (fen.rs). -/
def FEN_PIECES : List (Char × Piece) :=
  [('P', .WhitePawn), ('B', .WhiteBishop), ('N', .WhiteKnight),
   ('R', .WhiteRook), ('Q', .WhiteQueen), ('K', .WhiteKing),
   ('p', .BlackPawn), ('b', .BlackBishop), ('n', .BlackKnight),
   ('r', .BlackRook), ('q', .BlackQueen), ('k', .BlackKing)]

/-- The FEN_RANKS table (fen.rs): letters a..h to 0..7. -/
def FEN_RANKS : List (Char × Nat) :=
  [('a', 0), ('b', 1), ('c', 2), ('d', 3), ('e', 4), ('f', 5), ('g', 6), ('h', 7)]

/-- The FEN_FILES table (fen.rs): digits 1..8 to 0..7. -/
def FEN_FILES : List (Char × Nat) :=
  [('1', 0), ('2', 1), ('3', 2), ('4', 3), ('5', 4), ('6', 5), ('7', 6), ('8', 7)]

/-- Linear table search by first component (the `for i in 0..len` loops
of the `*_from_char` helpers in fen.rs). -/
def lookupByFst {β : Type} : List (Char × β) → Char → Option β
  | [], _ => none
  | (a, b) :: t, c => if a = c then some b else lookupByFst t c

/-- Linear table search by second component (the `char_from_*` helpers of
fen.rs). -/
def lookupBySnd {β : Type} [DecidableEq β] : List (Char × β) → β → Option Char
  | [], _ => none
  | (a, b) :: t, x => if b = x then some a else lookupBySnd t x

/-- fen.rs piece_from_char. -/
def piece_from_char (c : Char) : Option Piece := lookupByFst FEN_PIECES c

/-- fen.rs file_from_char: searches the FEN_FILES digit table. -/
def file_from_char (c : Char) : Option Nat := lookupByFst FEN_FILES c

/-- fen.rs rank_from_char: searches the FEN_RANKS letter table (the loop
bound is FEN_FILES.len(), but both tables have 8 entries). -/
def rank_from_char (c : Char) : Option Nat := lookupByFst FEN_RANKS c

/-- fen.rs char_from_piece. -/
def char_from_piece (p : Piece) : Option Char := lookupBySnd FEN_PIECES p

/-- fen.rs char_from_file: searches the FEN_FILES digit table. -/
def char_from_file (f : Nat) : Option Char := lookupBySnd FEN_FILES f

/-- fen.rs char_from_rank: searches the FEN_RANKS letter table (again
with FEN_FILES.len() as the loop bound; both tables have 8 entries). -/
def char_from_rank (r : Nat) : Option Char := lookupBySnd FEN_RANKS r

/-- utils::square_idx (bits/utils.rs): `(rank_idx << 3) + file_idx`. -/
def square_idx (rank_idx file_idx : Nat) : Nat := (rank_idx <<< 3) + file_idx

/-- utils::file_idx (bits/utils.rs): `square_idx & 7`. -/
def file_idx (sq : Nat) : Nat := sq &&& 7

/-- Split a character list at every occurrence of the separator,
matching Rust `str::split` (adjacent separators yield empty pieces, the
empty input yields one empty piece). -/
def splitOnChar (sep : Char) : List Char → List Char → List (List Char)
  | [], acc => [acc.reverse]
  | c :: rest, acc =>
      if c = sep then acc.reverse :: splitOnChar sep rest []
      else splitOnChar sep rest (c :: acc)

/-- Rust `str::trim` on the character-list model. -/
def trimChars (cs : List Char) : List Char :=
  ((cs.dropWhile Char.isWhitespace).reverse.dropWhile Char.isWhitespace).reverse

/-- Core of Rust `str::parse::<uN>`: a non-empty all-digit run to its
value. -/
def digitsVal : List Char → Nat → Option Nat
  | [], acc => some acc
  | c :: rest, acc =>
      if c.isDigit then digitsVal rest (acc * 10 + (c.toNat - 48)) else none

/-- Rust `str::parse` for an unsigned integer type of bound `bound`
(exclusive): optional leading '+', then at least one digit, value below
the bound.  `none` is a parse failure (which the callers' `expect` turns
into a panic). -/
def parseUInt (bound : Nat) (cs : List Char) : Option Nat :=
  let body := match cs with
    | '+' :: rest => rest
    | _ => cs
  match body with
  | [] => none
  | _ => do
      let n ← digitsVal body 0
      if n < bound then some n else none

/-- fen.rs white_to_move_from, with the caller's `expect` folded in:
"w" is white, "b" is black, anything else is a parse failure. -/
def white_to_move_from (cs : List Char) : Option Bool :=
  if cs = ['w'] then some true
  else if cs = ['b'] then some false
  else none

/-- fen.rs castlerights_from: flag i is set exactly when the i-th of
'K', 'Q', 'k', 'q' occurs in the field. -/
def castlerights_from (cs : List Char) : Fin 4 → Bool :=
  fun i =>
    match i with
    | 0 => cs.contains 'K'
    | 1 => cs.contains 'Q'
    | 2 => cs.contains 'k'
    | 3 => cs.contains 'q'

/-- fen.rs ep_square_from: "-" is no target; otherwise the first
character is looked up in the FEN_FILES (digit) table and the second in
the FEN_RANKS (letter) table, and the square is
square_idx(rank_idx, file_idx).  `none` is a panicking unwrap (missing
character or failed lookup). -/
def ep_square_from (cs : List Char) : Option (Option Nat) :=
  if cs = ['-'] then some none
  else do
    let c0 ← cs.get? 0
    let fi ← file_from_char c0
    let c1 ← cs.get? 1
    let ri ← rank_from_char c1
    some (some (square_idx ri fi))

/-- One rank of fen.rs add_pieces: digits advance the file index, other
characters are looked up as pieces and added at
square_idx(rank, file as u8) (the usize-to-u8 cast truncates mod 256).
`none` models the unwrap panic on an unknown character and the index
panic when the computed square is 64 or above. -/
def addPiecesRank (rank_idx : Nat) : List Char → Nat → GameState → Option GameState
  | [], _, st => some st
  | c :: rest, fileIdx, st =>
      if c.isDigit then addPiecesRank rank_idx rest (fileIdx + (c.toNat - 48)) st
      else match piece_from_char c with
        | none => none
        | some p =>
            if square_idx rank_idx (fileIdx % 256) < 64 then
              addPiecesRank rank_idx rest (fileIdx + 1)
                (st.add_piece p (square_idx rank_idx (fileIdx % 256)))
            else none

/-- The outer rank loop of fen.rs add_pieces (ranks already reversed to
bottom-up order). -/
def addPiecesAux : Nat → List (List Char) → GameState → Option GameState
  | _, [], st => some st
  | i, r :: rest, st => do
      let st2 ← addPiecesRank i r 0 st
      addPiecesAux (i + 1) rest st2

/-- fen.rs add_pieces: split the placement field on '/', reverse the
rank list (the swap loop), require exactly 8 ranks (a shorter list
panics inside the swap loop, a longer one fails the length check), then
add every piece rank by rank. -/
def add_pieces (pos_str : List Char) (st : GameState) : Option GameState :=
  if (splitOnChar '/' pos_str []).length = 8 then
    addPiecesAux 0 (splitOnChar '/' pos_str []).reverse st
  else none

/-- fen.rs parse_fen: split on spaces into exactly 6 fields; field 4 is
the full-move clock (u32) and field 5 the half-move clock (u8) — note
the swap relative to the standard FEN field order; build the state and
add the pieces.  `none` is any of the source's parse panics. -/
def parse_fen (fen : List Char) : Option GameState :=
  match splitOnChar ' ' fen [] with
  | [f0, f1, f2, f3, f4, f5] => do
      let fullmove ← parseUInt (2 ^ 32) (trimChars f4)
      let halfmove ← parseUInt 256 (trimChars f5)
      let wtm ← white_to_move_from f1
      let ep ← ep_square_from f3
      let st := GameState.new (fun _ => 0) wtm ep halfmove fullmove (castlerights_from f2)
      add_pieces f0 st
  | _ => none

/-- Decimal digits of a Nat (Rust `format!("{}", n)`), via a fuel-bounded
division loop. -/
def natToCharsAux : Nat → Nat → List Char
  | 0, _ => []
  | fuel + 1, n =>
      if n < 10 then [Char.ofNat (48 + n)]
      else natToCharsAux fuel (n / 10) ++ [Char.ofNat (48 + n % 10)]

/-- Decimal representation of a Nat as characters. -/
def natToChars (n : Nat) : List Char := natToCharsAux (n + 1) n

/-- fen.rs ser_castle_rights: emit 'K', 'Q', 'k', 'q' for the set
flags. -/
def ser_castle_rights (st : GameState) : List Char :=
  (if st.castlerights 0 then ['K'] else []) ++
  (if st.castlerights 1 then ['Q'] else []) ++
  (if st.castlerights 2 then ['k'] else []) ++
  (if st.castlerights 3 then ['q'] else [])

/-- fen.rs ser_side_to_move. -/
def ser_side_to_move (st : GameState) : List Char :=
  if st.white_to_move then ['w'] else ['b']

/-- fen.rs ser_ep_square: '-' when no target; otherwise the source
computes `file_idx := utils::file_idx(ep)` and then
`rank_idx := utils::file_idx(ep)` as well (fen.rs line 109 — the rank
index is also derived from the file), and emits
char_from_file(file_idx) followed by char_from_rank(rank_idx).  The
unwraps cannot fail because both indices are below 8; `getD` stands for
the infallible unwrap. -/
def ser_ep_square (st : GameState) : List Char :=
  match st.ep_square with
  | none => ['-']
  | some ep =>
      let fi := file_idx ep
      let ri := file_idx ep
      [(char_from_file fi).getD '?', (char_from_rank ri).getD '?']

/-- fen.rs ser_halfmove_clock. -/
def ser_halfmove_clock (st : GameState) : List Char := natToChars st.halfmove_clock

/-- fen.rs ser_fullmove_clock. -/
def ser_fullmove_clock (st : GameState) : List Char := natToChars st.fullmove_clock

/-- Inner file loop of fen.rs ser_bbs for one rank: run-length encode
empty squares, flush the pending count before a piece and at file 7. -/
def serBbsFiles (st : GameState) (rank_idx : Nat) :
    List Nat → Nat → List Char → List Char
  | [], _, acc => acc
  | f :: fs, cnt, acc =>
      let sq := square_idx rank_idx f
      let step : Nat × List Char :=
        match st.occupying_piece sq with
        | some p =>
            (0, (if 0 < cnt then acc ++ natToChars cnt else acc) ++
                [(char_from_piece p).getD '?'])
        | none => (cnt + 1, acc)
      let acc2 := if f = 7 ∧ 0 < step.1 then step.2 ++ natToChars step.1 else step.2
      serBbsFiles st rank_idx fs step.1 acc2

/-- Outer rank loop of fen.rs ser_bbs: ranks 7 down to 0, '/' after
every rank except rank 0. -/
def serBbsRanks (st : GameState) : List Nat → List Char → List Char
  | [], acc => acc
  | r :: rs, acc =>
      let acc2 := serBbsFiles st r [0, 1, 2, 3, 4, 5, 6, 7] 0 acc
      let acc3 := if r ≠ 0 then acc2 ++ ['/'] else acc2
      serBbsRanks st rs acc3

/-- fen.rs ser_bbs: the placement field. -/
def ser_bbs (st : GameState) : List Char :=
  serBbsRanks st [7, 6, 5, 4, 3, 2, 1, 0] []

/-- Join character-list fields with single spaces (the `join(" ")` of
to_fen). -/
def joinSpace : List (List Char) → List Char
  | [] => []
  | [x] => x
  | x :: xs => x ++ ' ' :: joinSpace xs

/-- fen.rs to_fen: the six fields, in the source's order — placement,
side to move, castle rights, en-passant square, full-move clock,
half-move clock — joined with spaces. -/
def to_fen (st : GameState) : List Char :=
  joinSpace [ser_bbs st, ser_side_to_move st, ser_castle_rights st,
             ser_ep_square st, ser_fullmove_clock st, ser_halfmove_clock st]

/-! ## The occupancy / bitboard consistency invariant. -/

/-- The documented reverse-index invariant: for every square below 64
and every live piece kind, the reverse index holds that kind exactly
when the corresponding bit of that kind's occupancy word is set. -/
def Inv (st : GameState) : Prop :=
  ∀ s : Nat, s < 64 → ∀ p : Piece, p ≠ Piece.Null →
    (st.occupancy s = p ↔ (st.bbs p).testBit s)

/-- Precondition of add_piece stated by the spec: the target square is
empty or already holds the same piece. -/
def addOk (st : GameState) (p : Piece) (sq : Nat) : Prop :=
  st.occupancy sq = Piece.Null ∨ st.occupancy sq = p

instance decidableAddOk (st : GameState) (p : Piece) (sq : Nat) :
    Decidable (addOk st p sq) :=
  inferInstanceAs (Decidable (_ ∨ _))

/-- All add_piece calls performed inside make hit an empty square or a
square holding the same piece (the spec's caveat on place/add_piece,
instantiated at the call sites inside the transition engine). -/
def makeAddsOk (st : GameState) (m : GameMove) : Prop :=
  if m.moveType = MoveType.QueenCastle ∨ m.moveType = MoveType.KingCastle then
    addOk (castleS1 st) (castleKingPiece st.white_to_move)
        (castleKingTo m.moveType st.white_to_move) ∧
      addOk (castleS3 st m) (castleRookPiece st.white_to_move)
        (castleRookTo m.moveType st.white_to_move)
  else
    match GameState.makeStage1 st m, st.occupying_piece m.fromsquare with
    | some s1, some moving => addOk (s1.remove_piece m.fromsquare).2 moving m.tosquare
    | _, _ => True

/-! ## Basic lemmas about the occupancy primitives. -/

theorem occupying_ne_null (st : GameState) (sq : Nat) (p : Piece)
    (h : st.occupying_piece sq = some p) : p ≠ Piece.Null := by
  intro hnull
  subst hnull
  unfold GameState.occupying_piece at h
  cases hp : st.occupancy sq <;> rw [hp] at h <;> simp_all

theorem occupying_eq_some_iff (st : GameState) (sq : Nat) (p : Piece)
    (hp : p ≠ Piece.Null) : st.occupying_piece sq = some p ↔ st.occupancy sq = p := by
  unfold GameState.occupying_piece
  cases h : st.occupancy sq <;> first
    | (simp_all; exact fun hh => hp hh.symm)
    | simp_all

theorem occupying_eq_none_iff (st : GameState) (sq : Nat) :
    st.occupying_piece sq = none ↔ st.occupancy sq = Piece.Null := by
  unfold GameState.occupying_piece
  cases h : st.occupancy sq <;> simp_all

/-- Occupancy reading after add_piece. -/
theorem occupying_add (st : GameState) (p : Piece) (sq : Nat) (hp : p ≠ Piece.Null)
    (x : Nat) :
    (st.add_piece p sq).occupying_piece x =
      if x = sq then some p else st.occupying_piece x := by
  unfold GameState.add_piece GameState.occupying_piece updFn
  by_cases hx : x = sq
  · simp only [hx, if_pos rfl]
    cases p <;> simp_all
  · simp [hx]

/-- Reverse-index entry after remove_piece. -/
theorem occupancy_remove (st : GameState) (sq x : Nat) :
    (st.remove_piece sq).2.occupancy x =
      if x = sq then Piece.Null else st.occupancy x := by
  unfold GameState.remove_piece
  cases h : st.occupying_piece sq with
  | none =>
      have := (occupying_eq_none_iff st sq).1 h
      by_cases hx : x = sq <;> simp [hx, this]
  | some p => by_cases hx : x = sq <;> simp [hx, updFn]

/-- Occupancy reading after remove_piece. -/
theorem occupying_remove (st : GameState) (sq x : Nat) :
    (st.remove_piece sq).2.occupying_piece x =
      if x = sq then none else st.occupying_piece x := by
  unfold GameState.occupying_piece
  rw [occupancy_remove]
  by_cases hx : x = sq <;> simp [hx]

/-- The metadata fields are untouched by the three occupancy-mutating
primitives. -/
theorem add_piece_meta (st : GameState) (p : Piece) (sq : Nat) :
    (st.add_piece p sq).white_to_move = st.white_to_move ∧
    (st.add_piece p sq).ep_square = st.ep_square ∧
    (st.add_piece p sq).halfmove_clock = st.halfmove_clock ∧
    (st.add_piece p sq).fullmove_clock = st.fullmove_clock ∧
    (st.add_piece p sq).castlerights = st.castlerights :=
  ⟨rfl, rfl, rfl, rfl, rfl⟩

theorem remove_piece_meta (st : GameState) (sq : Nat) :
    (st.remove_piece sq).2.white_to_move = st.white_to_move ∧
    (st.remove_piece sq).2.ep_square = st.ep_square ∧
    (st.remove_piece sq).2.halfmove_clock = st.halfmove_clock ∧
    (st.remove_piece sq).2.fullmove_clock = st.fullmove_clock ∧
    (st.remove_piece sq).2.castlerights = st.castlerights := by
  unfold GameState.remove_piece
  cases h : st.occupying_piece sq <;> exact ⟨rfl, rfl, rfl, rfl, rfl⟩

theorem promote_piece_meta (st : GameState) (sq : Nat) (p : Piece) :
    (st.promote_piece sq p).white_to_move = st.white_to_move ∧
    (st.promote_piece sq p).ep_square = st.ep_square ∧
    (st.promote_piece sq p).halfmove_clock = st.halfmove_clock ∧
    (st.promote_piece sq p).fullmove_clock = st.fullmove_clock ∧
    (st.promote_piece sq p).castlerights = st.castlerights := by
  unfold GameState.promote_piece
  have h1 := remove_piece_meta st sq
  have h2 := add_piece_meta (st.remove_piece sq).2 p sq
  exact ⟨h2.1.trans h1.1, h2.2.1.trans h1.2.1, h2.2.2.1.trans h1.2.2.1,
    h2.2.2.2.1.trans h1.2.2.2.1, h2.2.2.2.2.trans h1.2.2.2.2⟩

/-! ## Preservation of the invariant by the occupancy primitives. -/

theorem inv_add (st : GameState) (p : Piece) (sq : Nat)
    (hsq : sq < 64) (hp : p ≠ Piece.Null) (hInv : Inv st) (hok : addOk st p sq) :
    Inv (st.add_piece p sq) := by
  intro s hs q hq
  show (if s = sq then p else st.occupancy s) = q ↔
      (if q = p then st.bbs p ||| 2 ^ sq else st.bbs q).testBit s = true
  by_cases hssq : s = sq
  · subst hssq
    by_cases hqp : q = p
    · subst hqp
      rw [if_pos rfl, if_pos rfl]
      simp [Nat.testBit_or, Nat.testBit_two_pow]
    · rw [if_pos rfl, if_neg hqp]
      have hbit : (st.bbs q).testBit s = false := by
        rw [← Bool.not_eq_true, ← (hInv s hs q hq)]
        rcases hok with h | h <;> rw [h] <;> intro hcon
        · exact hq hcon.symm
        · exact hqp hcon.symm
      exact iff_of_false (fun hh => hqp hh.symm) (by simp [hbit])
  · by_cases hqp : q = p
    · subst hqp
      rw [if_neg hssq, if_pos rfl]
      have hbit2 : Nat.testBit (2 ^ sq) s = false :=
        Nat.testBit_two_pow_of_ne (fun hh : sq = s => hssq hh.symm)
      rw [show ((st.bbs q ||| 2 ^ sq).testBit s) = ((st.bbs q).testBit s) by
        simp [Nat.testBit_or, hbit2]]
      exact hInv s hs q hq
    · rw [if_neg hssq, if_neg hqp]
      exact hInv s hs q hq

theorem inv_remove (st : GameState) (sq : Nat) (hsq : sq < 64) (hInv : Inv st) :
    Inv (st.remove_piece sq).2 := by
  unfold GameState.remove_piece
  cases h : st.occupying_piece sq with
  | none => exact hInv
  | some p =>
      have hpn : p ≠ Piece.Null := occupying_ne_null st sq p h
      have hocc : st.occupancy sq = p := (occupying_eq_some_iff st sq p hpn).1 h
      have hmask : ∀ j, j < 64 →
          Nat.testBit ((2 ^ 64 - 1) ^^^ 2 ^ sq) j = !(decide (sq = j)) := by
        intro j hj
        rw [Nat.testBit_xor, Nat.testBit_two_pow_sub_one, Nat.testBit_two_pow]
        simp [hj]
      intro s hs q hq
      show (if s = sq then Piece.Null else st.occupancy s) = q ↔
          (if q = p then st.bbs p &&& ((2 ^ 64 - 1) ^^^ 2 ^ sq) else st.bbs q).testBit s
            = true
      by_cases hssq : s = sq
      · subst hssq
        rw [if_pos rfl]
        by_cases hqp : q = p
        · subst hqp
          rw [if_pos rfl]
          refine iff_of_false (fun hh => hq hh.symm) ?_
          rw [Nat.testBit_and, hmask s hs]
          simp
        · rw [if_neg hqp]
          have hbit : (st.bbs q).testBit s = false := by
            rw [← Bool.not_eq_true, ← (hInv s hs q hq), hocc]
            exact fun hcon => hqp hcon.symm
          exact iff_of_false (fun hh => hq hh.symm) (by simp [hbit])
      · rw [if_neg hssq]
        by_cases hqp : q = p
        · subst hqp
          rw [if_pos rfl]
          have hd : (decide (sq = s)) = false := by
            simp only [decide_eq_false_iff_not]
            exact fun hh => hssq hh.symm
          have hbit3 : (st.bbs q &&& ((2 ^ 64 - 1) ^^^ 2 ^ sq)).testBit s
              = (st.bbs q).testBit s := by
            rw [Nat.testBit_and, hmask s hs, hd]
            simp
          rw [hbit3]
          exact hInv s hs q hq
        · rw [if_neg hqp]
          exact hInv s hs q hq

theorem inv_promote (st : GameState) (sq : Nat) (p : Piece)
    (hsq : sq < 64) (hp : p ≠ Piece.Null) (hInv : Inv st) :
    Inv (st.promote_piece sq p) := by
  unfold GameState.promote_piece
  refine inv_add _ p sq hsq hp (inv_remove st sq hsq hInv) (Or.inl ?_)
  rw [occupancy_remove]
  simp

/-! ## Facts about the packed move word. -/

theorem moveTypeIdx_lt (m : GameMove) : 15 &&& m.data % 65536 < 16 :=
  Nat.lt_succ_of_le Nat.and_le_left

theorem tosquare_lt (m : GameMove) : m.tosquare < 64 :=
  Nat.lt_succ_of_le Nat.and_le_right

theorem fromsquare_lt (m : GameMove) : m.fromsquare < 64 := by
  unfold GameMove.fromsquare
  rw [Nat.shiftRight_eq_div_pow]
  exact Nat.div_lt_of_lt_mul (Nat.mod_lt _ (by decide))

/-- Pull a sub-mask through the 4-bit metadata mask. -/
theorem land_through_mask (a y : Nat) (ha : a &&& 15 = a) :
    a &&& y = a &&& (15 &&& y) := by
  conv_lhs => rw [← ha]
  rw [Nat.and_assoc]

theorem mt_idx_of_ep (m : GameMove) (h : m.moveType = MoveType.EpCapture) :
    15 &&& m.data % 65536 = 5 := by
  have hlt := moveTypeIdx_lt m
  unfold GameMove.moveType at h
  exact (by decide :
    ∀ i < 16, metadataToMovetype i = MoveType.EpCapture → i = 5) _ hlt h

theorem isCapture_of_ep (m : GameMove) (h : m.moveType = MoveType.EpCapture) :
    m.isCapture = true := by
  unfold GameMove.isCapture
  rw [land_through_mask 4 (m.data % 65536) (by decide), mt_idx_of_ep m h]
  decide

theorem isPromo_of_ep (m : GameMove) (h : m.moveType = MoveType.EpCapture) :
    m.isPromo = false := by
  unfold GameMove.isPromo
  rw [land_through_mask 8 (m.data % 65536) (by decide), mt_idx_of_ep m h]
  decide

/-! ## Characterizations of make. -/

theorem incU8_some {n k : Nat} (h : incU8 n = some k) : k = n + 1 := by
  unfold incU8 at h
  split at h
  · exact (Option.some.inj h).symm
  · cases h

theorem incU32_some {n k : Nat} (h : incU32 n = some k) : k = n + 1 := by
  unfold incU32 at h
  split at h
  · exact (Option.some.inj h).symm
  · cases h

/-- Value of the full-move-clock step when it does not panic. -/
theorem fullmoveStep_some (st : GameState) {k : Nat}
    (h : st.fullmoveStep = some k) :
    k = (if st.white_to_move then st.fullmove_clock else st.fullmove_clock + 1) := by
  unfold GameState.fullmoveStep at h
  cases hw : st.white_to_move <;> simp [hw] at h ⊢
  · exact incU32_some h
  · exact h.symm

/-- The castling branch of make in one equation: the board/rights part
is castleBoard, the clocks are incremented as the source does. -/
theorem make_castle_spec (st : GameState) (m : GameMove) (st2 : GameState)
    (hc : m.moveType = MoveType.QueenCastle ∨ m.moveType = MoveType.KingCastle)
    (hmk : st.make m = some st2) :
    st2 = { st.castleBoard m with
            fullmove_clock :=
              if st.white_to_move then st.fullmove_clock else st.fullmove_clock + 1,
            halfmove_clock := st.halfmove_clock + 1 } := by
  unfold GameState.make at hmk
  rw [if_pos hc] at hmk
  simp only [Option.bind_eq_bind, Option.bind_eq_some] at hmk
  obtain ⟨full, hfull, hmk⟩ := hmk
  obtain ⟨half, hhalf, hmk⟩ := hmk
  obtain rfl := Option.some.inj hmk
  rw [fullmoveStep_some st hfull, incU8_some hhalf]

/-- Metadata preservation through the capture stage. -/
theorem makeStage1_meta (st : GameState) (m : GameMove) {s1 : GameState}
    (h : GameState.makeStage1 st m = some s1) :
    s1.white_to_move = st.white_to_move ∧
    s1.ep_square = st.ep_square ∧
    s1.halfmove_clock = st.halfmove_clock ∧
    s1.fullmove_clock = st.fullmove_clock ∧
    s1.castlerights = st.castlerights := by
  unfold GameState.makeStage1 at h
  split at h
  · simp only [Option.bind_eq_bind, Option.bind_eq_some] at h
    obtain ⟨capSq, hcap, h⟩ := h
    split at h
    · obtain rfl := Option.some.inj h
      have hm := remove_piece_meta st capSq
      exact ⟨hm.1, hm.2.1, hm.2.2.1, hm.2.2.2.1, hm.2.2.2.2⟩
    · cases h
  · obtain rfl := Option.some.inj h
    exact ⟨rfl, rfl, rfl, rfl, rfl⟩

/-- The capture stage preserves the occupancy invariant. -/
theorem inv_makeStage1 (st : GameState) (m : GameMove) {s1 : GameState}
    (hInv : Inv st) (h : GameState.makeStage1 st m = some s1) : Inv s1 := by
  unfold GameState.makeStage1 at h
  split at h
  · simp only [Option.bind_eq_bind, Option.bind_eq_some] at h
    obtain ⟨capSq, hcap, h⟩ := h
    split at h
    · obtain rfl := Option.some.inj h
      exact inv_remove st capSq (by assumption) hInv
    · cases h
  · obtain rfl := Option.some.inj h
    exact hInv

/-- The non-castling branch of make in one equation: some piece sits on
the source square, the capture stage succeeds, the board is the
move/promotion chain, and the final state is that board with the
metadata updates of the source. -/
theorem make_nonCastle_spec (st : GameState) (m : GameMove) (st2 : GameState)
    (hc : ¬(m.moveType = MoveType.QueenCastle ∨ m.moveType = MoveType.KingCastle))
    (hmk : st.make m = some st2) :
    ∃ moving s1 s4,
      st.occupying_piece m.fromsquare = some moving ∧
      GameState.makeStage1 st m = some s1 ∧
      ((m.isPromo = false ∧
          s4 = (s1.remove_piece m.fromsquare).2.add_piece moving m.tosquare) ∨
       (∃ pp, m.isPromo = true ∧ m.promoPiece st.white_to_move = some pp ∧
          s4 = ((s1.remove_piece m.fromsquare).2.add_piece moving
                  m.tosquare).promote_piece m.tosquare pp)) ∧
      st2 = { s4 with
        ep_square :=
          if m.moveType = MoveType.DoublePawnPush then
            (if st.white_to_move then some (m.tosquare - 8) else some (m.tosquare + 8))
          else none
        white_to_move := !st.white_to_move
        fullmove_clock :=
          if st.white_to_move then st.fullmove_clock else st.fullmove_clock + 1
        halfmove_clock :=
          if m.isCapture || (decide (moving = Piece.WhitePawn) ||
              decide (moving = Piece.BlackPawn)) then 0
          else st.halfmove_clock + 1
        castlerights := rookFix s4.castlerights st.white_to_move moving m.fromsquare } := by
  unfold GameState.make at hmk
  rw [if_neg hc] at hmk
  cases hmv : st.occupying_piece m.fromsquare with
  | none => rw [hmv] at hmk; cases hmk
  | some moving =>
      rw [hmv] at hmk
      simp only [Option.bind_eq_bind, Option.bind_eq_some] at hmk
      obtain ⟨s1, hs1, hmk⟩ := hmk
      obtain ⟨s4, hs4, hmk⟩ := hmk
      obtain ⟨ep, hep, hmk⟩ := hmk
      obtain ⟨full, hfull, hmk⟩ := hmk
      obtain ⟨half, hhalf, hmk⟩ := hmk
      obtain rfl := Option.some.inj hmk
      refine ⟨moving, s1, s4, rfl, hs1, ?_, ?_⟩
      · -- the promotion split
        unfold GameState.promoStep at hs4
        by_cases hpr : m.isPromo
        · rw [if_pos hpr] at hs4
          cases hpp : m.promoPiece st.white_to_move with
          | none => rw [hpp] at hs4; cases hs4
          | some pp =>
              rw [hpp] at hs4
              exact Or.inr ⟨pp, hpr, rfl, (Option.some.inj hs4).symm⟩
        · rw [if_neg hpr] at hs4
          exact Or.inl ⟨Bool.not_eq_true _ ▸ (by simpa using hpr),
            (Option.some.inj hs4).symm⟩
      · -- the metadata fields
        have hepv : ep =
            (if m.moveType = MoveType.DoublePawnPush then
              (if st.white_to_move then some (m.tosquare - 8)
               else some (m.tosquare + 8))
             else none) := by
          unfold GameState.epStep at hep
          by_cases hdpp : m.moveType = MoveType.DoublePawnPush
          · rw [if_pos hdpp] at hep ⊢
            by_cases hw : st.white_to_move = true
            · rw [if_pos hw] at hep ⊢
              split at hep
              · exact (Option.some.inj hep).symm
              · cases hep
            · rw [if_neg hw] at hep ⊢
              exact (Option.some.inj hep).symm
          · rw [if_neg hdpp] at hep ⊢
            exact (Option.some.inj hep).symm
        have hhalfv : half =
            (if m.isCapture || (decide (moving = Piece.WhitePawn) ||
                decide (moving = Piece.BlackPawn)) then 0
             else st.halfmove_clock + 1) := by
          unfold GameState.halfmoveStep at hhalf
          split at hhalf
          · rw [if_pos (by assumption)]
            exact (Option.some.inj hhalf).symm
          · rw [if_neg (by assumption)]
            exact incU8_some hhalf
        rw [hepv, fullmoveStep_some st hfull, hhalfv]

/-! ## Preservation of the invariant by make. -/

theorem castle_squares_lt (mt : MoveType) (w : Bool)
    (hc : mt = MoveType.QueenCastle ∨ mt = MoveType.KingCastle) :
    castleKingFrom w < 64 ∧ castleKingTo mt w < 64 ∧
    castleRookFrom mt w < 64 ∧ castleRookTo mt w < 64 := by
  rcases hc with h | h <;> subst h <;> cases w <;> decide

theorem castle_pieces_ne_null (w : Bool) :
    castleKingPiece w ≠ Piece.Null ∧ castleRookPiece w ≠ Piece.Null := by
  cases w <;> decide

theorem promoPiece_ne_null (m : GameMove) (w : Bool) {pp : Piece}
    (h : m.promoPiece w = some pp) : pp ≠ Piece.Null := by
  unfold GameMove.promoPiece at h
  split at h
  · cases h
  · split at h <;> cases h
    all_goals cases w <;> decide

theorem inv_make (st : GameState) (m : GameMove) (st2 : GameState)
    (hInv : Inv st) (hOk : makeAddsOk st m) (hmk : st.make m = some st2) :
    Inv st2 := by
  by_cases hc : m.moveType = MoveType.QueenCastle ∨ m.moveType = MoveType.KingCastle
  · have hspec := make_castle_spec st m st2 hc hmk
    subst hspec
    unfold makeAddsOk at hOk
    rw [if_pos hc] at hOk
    obtain ⟨hok1, hok2⟩ := hOk
    have hsq := castle_squares_lt m.moveType st.white_to_move hc
    have hpc := castle_pieces_ne_null st.white_to_move
    have h1 : Inv (castleS1 st) := inv_remove _ _ hsq.1 hInv
    have h2 : Inv (castleS2 st m) := inv_add _ _ _ hsq.2.1 hpc.1 h1 hok1
    have h3 : Inv (castleS3 st m) := inv_remove _ _ hsq.2.2.1 h2
    have h4 : Inv (castleS4 st m) := inv_add _ _ _ hsq.2.2.2 hpc.2 h3 hok2
    exact h4
  · obtain ⟨moving, s1, s4, hmv, hs1, hsplit, hst2⟩ :=
      make_nonCastle_spec st m st2 hc hmk
    subst hst2
    have hInv1 : Inv s1 := inv_makeStage1 st m hInv hs1
    have hInv2 : Inv (s1.remove_piece m.fromsquare).2 :=
      inv_remove _ _ (fromsquare_lt m) hInv1
    have hmovnn : moving ≠ Piece.Null := occupying_ne_null _ _ _ hmv
    unfold makeAddsOk at hOk
    rw [if_neg hc, hs1, hmv] at hOk
    have hInv3 : Inv ((s1.remove_piece m.fromsquare).2.add_piece moving m.tosquare) :=
      inv_add _ _ _ (tosquare_lt m) hmovnn hInv2 hOk
    rcases hsplit with ⟨hpr, rfl⟩ | ⟨pp, hpr, hpp, rfl⟩
    · exact hInv3
    · exact inv_promote _ _ _ (tosquare_lt m)
        (promoPiece_ne_null m st.white_to_move hpp) hInv3

/-! ## The invariant on states built by the textual codec. -/

theorem lookupByFst_mem {β : Type} (l : List (Char × β)) (c : Char) (b : β)
    (h : lookupByFst l c = some b) : (c, b) ∈ l := by
  induction l with
  | nil => cases h
  | cons hd tl ih =>
      obtain ⟨a, v⟩ := hd
      unfold lookupByFst at h
      split at h
      · obtain rfl := Option.some.inj h
        subst (by assumption : a = c)
        exact List.mem_cons_self _ _
      · exact List.mem_cons_of_mem _ (ih h)

theorem piece_from_char_ne_null (c : Char) {p : Piece}
    (h : piece_from_char c = some p) : p ≠ Piece.Null := by
  have hm := lookupByFst_mem _ _ _ h
  fin_cases hm <;> decide

/-- States built by GameState::new with all-zero bitboards satisfy the
invariant (the reverse index starts empty). -/
theorem inv_new_zero (wtm : Bool) (ep : Option Nat) (half full : Nat)
    (cr : Fin 4 → Bool) : Inv (GameState.new (fun _ => 0) wtm ep half full cr) := by
  intro s hs p hp
  exact iff_of_false (fun hh => hp hh.symm) (by simp [GameState.new])

/-- In-line checker that every add_piece performed while reading one
placement rank respects the spec's occupied-square caveat. -/
def addPiecesRankOk (rank_idx : Nat) : List Char → Nat → GameState → Bool
  | [], _, _ => true
  | c :: rest, fileIdx, st =>
      if c.isDigit then addPiecesRankOk rank_idx rest (fileIdx + (c.toNat - 48)) st
      else match piece_from_char c with
        | none => true
        | some p =>
            if square_idx rank_idx (fileIdx % 256) < 64 then
              decide (addOk st p (square_idx rank_idx (fileIdx % 256))) &&
                addPiecesRankOk rank_idx rest (fileIdx + 1)
                  (st.add_piece p (square_idx rank_idx (fileIdx % 256)))
            else true

/-- In-line checker over the whole placement field. -/
def addPiecesAuxOk : Nat → List (List Char) → GameState → Bool
  | _, [], _ => true
  | i, r :: rest, st =>
      addPiecesRankOk i r 0 st &&
        (match addPiecesRank i r 0 st with
         | some st2 => addPiecesAuxOk (i + 1) rest st2
         | none => true)

/-- Field-level checker: with the same field split and metadata parses
as parse_fen, check every add_piece of the placement pass.  Vacuously
true when the parse fails anyway. -/
def addPiecesOkOfFields : List (List Char) → Bool
  | [f0, f1, f2, f3, f4, f5] =>
      (match parseUInt (2 ^ 32) (trimChars f4), parseUInt 256 (trimChars f5),
          white_to_move_from f1, ep_square_from f3 with
       | some fullmove, some halfmove, some wtm, some ep =>
          if (splitOnChar '/' f0 []).length = 8 then
            addPiecesAuxOk 0 (splitOnChar '/' f0 []).reverse
              (GameState.new (fun _ => 0) wtm ep halfmove fullmove
                (castlerights_from f2))
          else true
       | _, _, _, _ => true)
  | _ => true

theorem inv_addPiecesRank (i : Nat) (cs : List Char) :
    ∀ (f : Nat) (st st2 : GameState), Inv st →
      addPiecesRankOk i cs f st = true → addPiecesRank i cs f st = some st2 →
      Inv st2 := by
  induction cs with
  | nil =>
      intro f st st2 hInv _ h
      unfold addPiecesRank at h
      obtain rfl := Option.some.inj h
      exact hInv
  | cons c rest ih =>
      intro f st st2 hInv hok h
      unfold addPiecesRank at h
      unfold addPiecesRankOk at hok
      by_cases hd : c.isDigit
      · rw [if_pos hd] at h hok
        exact ih _ _ _ hInv hok h
      · rw [if_neg hd] at h hok
        cases hp : piece_from_char c with
        | none => rw [hp] at h; cases h
        | some p =>
            simp only [hp] at h hok
            split at h
            · rw [if_pos (by assumption)] at hok
              obtain ⟨hok1, hok2⟩ := Bool.and_eq_true .. |>.mp hok
              exact ih _ _ _
                (inv_add st p _ (by assumption) (piece_from_char_ne_null c hp) hInv
                  (of_decide_eq_true hok1))
                hok2 h
            · cases h

theorem inv_addPiecesAux (rs : List (List Char)) :
    ∀ (i : Nat) (st st2 : GameState), Inv st →
      addPiecesAuxOk i rs st = true → addPiecesAux i rs st = some st2 → Inv st2 := by
  induction rs with
  | nil =>
      intro i st st2 hInv _ h
      unfold addPiecesAux at h
      obtain rfl := Option.some.inj h
      exact hInv
  | cons r rest ih =>
      intro i st st2 hInv hok h
      unfold addPiecesAux at h
      unfold addPiecesAuxOk at hok
      simp only [Option.bind_eq_bind, Option.bind_eq_some] at h
      obtain ⟨stm, hstm, h⟩ := h
      obtain ⟨hok1, hok2⟩ := Bool.and_eq_true .. |>.mp hok
      rw [hstm] at hok2
      exact ih _ _ _ (inv_addPiecesRank i r 0 st stm hInv hok1 hstm) hok2 h

/-- A state produced by parse_fen whose placement pass respects the
add_piece caveat satisfies the invariant. -/
theorem inv_parse_fen (fen : List Char) (st : GameState)
    (h : parse_fen fen = some st)
    (hok : addPiecesOkOfFields (splitOnChar ' ' fen []) = true) : Inv st := by
  unfold parse_fen at h
  split at h
  case h_2 => cases h
  case h_1 f0 f1 f2 f3 f4 f5 heq =>
      rw [heq] at hok
      simp only [addPiecesOkOfFields] at hok
      simp only [Option.bind_eq_bind, Option.bind_eq_some] at h
      obtain ⟨fullmove, hfm, h⟩ := h
      obtain ⟨halfmove, hhm, h⟩ := h
      obtain ⟨wtm, hwtm, h⟩ := h
      obtain ⟨ep, hep, h⟩ := h
      simp only [hfm, hhm, hwtm, hep] at hok
      unfold add_pieces at h
      split at h
      · rw [if_pos (by assumption)] at hok
        refine inv_addPiecesAux _ _ _ _ ?_ ?_ h
        · exact inv_new_zero _ _ _ _ _
        · exact hok
      · cases h

instance decidableMakeAddsOk (st : GameState) (m : GameMove) :
    Decidable (makeAddsOk st m) := by
  unfold makeAddsOk
  split
  · exact instDecidableAnd
  · cases GameState.makeStage1 st m <;>
      cases GameState.occupying_piece st m.fromsquare <;> infer_instance

/-- The Rust test's starting-position record (fen.rs STARTING_FEN). -/
def STARTING_FEN : List Char :=
  ("rnbqkbnr/pppppppp/8/8/8/8/PPPPPPPP/RNBQKBNR w KQkq - 0 1").toList

/-- C8: the square-to-piece reverse index stays consistent with the
occupancy words: it holds on the empty state, it is preserved by
add_piece (under the documented not-already-occupied caveat),
remove_piece, promote_piece, and make (with the caveat at make's
internal add_piece calls), it holds on every state the textual codec
builds (same caveat for the placement pass), and occupying_piece never
exposes the Null sentinel. -/
theorem occupancy_invariant_maintenance :
    Inv GameState.new_empty ∧
    (∀ st p sq, sq < 64 → p ≠ Piece.Null → Inv st → addOk st p sq →
      Inv (st.add_piece p sq)) ∧
    (∀ st sq, sq < 64 → Inv st → Inv (st.remove_piece sq).2) ∧
    (∀ st sq p, sq < 64 → p ≠ Piece.Null → Inv st → Inv (st.promote_piece sq p)) ∧
    (∀ st m st2, Inv st → makeAddsOk st m → st.make m = some st2 → Inv st2) ∧
    (∀ fen st, parse_fen fen = some st →
      addPiecesOkOfFields (splitOnChar ' ' fen []) = true → Inv st) ∧
    (∀ (st : GameState) (sq : Nat), st.occupying_piece sq ≠ some Piece.Null) := by
  refine ⟨?_, inv_add, inv_remove, fun st sq p h1 h2 h3 => inv_promote st sq p h1 h2 h3,
    inv_make, inv_parse_fen, fun st sq h => occupying_ne_null st sq _ h rfl⟩
  intro s hs p hp
  exact iff_of_false (fun hh => hp hh.symm) (by simp [GameState.new_empty])

/-- Witness: the invariant machinery applied at concrete inputs — an
add on the empty board, a removal, a promotion, a quiet knight move
through make, and the parsed starting position. -/
theorem occupancy_invariant_maintenance_witness :
    Inv (GameState.new_empty.add_piece Piece.WhiteKing 4) ∧
    Inv ((GameState.new_empty.add_piece Piece.WhiteKing 4).remove_piece 4).2 ∧
    Inv (GameState.new_empty.promote_piece 12 Piece.WhiteQueen) ∧
    Inv (((GameState.new_empty.add_piece Piece.WhiteKnight 1).make
          (GameMove.new 1 18 MoveType.Quiet)).getD GameState.new_empty) ∧
    Inv ((parse_fen STARTING_FEN).getD GameState.new_empty) := by
  have h := occupancy_invariant_maintenance
  have hadd : Inv (GameState.new_empty.add_piece Piece.WhiteKing 4) :=
    h.2.1 _ _ _ (by decide) (by decide) h.1 (Or.inl rfl)
  have hknight : Inv (GameState.new_empty.add_piece Piece.WhiteKnight 1) :=
    h.2.1 _ _ _ (by decide) (by decide) h.1 (Or.inl rfl)
  refine ⟨hadd, h.2.2.1 _ _ (by decide) hadd,
    h.2.2.2.1 _ _ _ (by decide) (by decide) h.1, ?_, ?_⟩
  · exact h.2.2.2.2.1 _ (GameMove.new 1 18 MoveType.Quiet) _ hknight
      (by decide) rfl
  · exact h.2.2.2.2.2.1 STARTING_FEN _ rfl (by decide)

/-! ## Frame lemmas for the castle chain and the rook fix-up. -/

theorem castleS4_meta (st : GameState) (m : GameMove) :
    (castleS4 st m).white_to_move = st.white_to_move ∧
    (castleS4 st m).ep_square = st.ep_square ∧
    (castleS4 st m).castlerights = st.castlerights := by
  unfold castleS4 castleS3 castleS2 castleS1
  refine ⟨?_, ?_, ?_⟩
  · rw [(add_piece_meta _ _ _).1, (remove_piece_meta _ _).1,
      (add_piece_meta _ _ _).1, (remove_piece_meta _ _).1]
  · rw [(add_piece_meta _ _ _).2.1, (remove_piece_meta _ _).2.1,
      (add_piece_meta _ _ _).2.1, (remove_piece_meta _ _).2.1]
  · rw [(add_piece_meta _ _ _).2.2.2.2, (remove_piece_meta _ _).2.2.2.2,
      (add_piece_meta _ _ _).2.2.2.2, (remove_piece_meta _ _).2.2.2.2]

/-- The rook-rights fix-up only ever clears flags. -/
theorem rookFix_false (cr : Fin 4 → Bool) (w : Bool) (mv : Piece) (fs : Nat)
    (i : Fin 4) (h : cr i = false) : rookFix cr w mv fs i = false := by
  unfold rookFix
  split
  · split
    all_goals try exact h
    all_goals unfold updFn
    all_goals split
    all_goals first | rfl | exact h
  · exact h

/-- The castlerights of a state after the non-castling branch of make
equal the rook fix-up applied to the input castlerights. -/
theorem s4_castlerights_of_split (st : GameState) (m : GameMove)
    {moving : Piece} {s1 s4 : GameState}
    (hs1 : GameState.makeStage1 st m = some s1)
    (hsplit : (m.isPromo = false ∧
        s4 = (s1.remove_piece m.fromsquare).2.add_piece moving m.tosquare) ∨
      (∃ pp, m.isPromo = true ∧ m.promoPiece st.white_to_move = some pp ∧
        s4 = ((s1.remove_piece m.fromsquare).2.add_piece moving
                m.tosquare).promote_piece m.tosquare pp)) :
    s4.castlerights = st.castlerights := by
  rcases hsplit with ⟨_, rfl⟩ | ⟨pp, _, _, rfl⟩
  · rw [(add_piece_meta _ _ _).2.2.2.2, (remove_piece_meta _ _).2.2.2.2,
      (makeStage1_meta st m hs1).2.2.2.2]
  · rw [(promote_piece_meta _ _ _).2.2.2.2, (add_piece_meta _ _ _).2.2.2.2,
      (remove_piece_meta _ _).2.2.2.2, (makeStage1_meta st m hs1).2.2.2.2]

/-- C9: castling rights are one-way — a flag that is false before make
is still false after it, whatever the move. -/
theorem castlerights_one_way (st : GameState) (m : GameMove) (st2 : GameState)
    (i : Fin 4) (hmk : st.make m = some st2)
    (h : st.castlerights i = false) : st2.castlerights i = false := by
  by_cases hc : m.moveType = MoveType.QueenCastle ∨ m.moveType = MoveType.KingCastle
  · have hspec := make_castle_spec st m st2 hc hmk
    subst hspec
    show updFn (updFn (castleS4 st m).castlerights (castleColorFlag st.white_to_move)
        false) (castleColorFlag st.white_to_move + 1) false i = false
    unfold updFn
    split
    · rfl
    · split
      · rfl
      · rw [(castleS4_meta st m).2.2]
        exact h
  · obtain ⟨moving, s1, s4, hmv, hs1, hsplit, rfl⟩ := make_nonCastle_spec st m st2 hc hmk
    show rookFix s4.castlerights st.white_to_move moving m.fromsquare i = false
    rw [s4_castlerights_of_split st m hs1 hsplit]
    exact rookFix_false _ _ _ _ _ h

/-- State with no pieces and all four castling rights already false,
used as a concrete witness input. -/
def noRightsState : GameState :=
  GameState.new (fun _ => 0) true none 0 1 (fun _ => false)

/-- The white kingside castle move of the witnesses (from-square 4,
to-square 7 — the source encodes the rook square as the to-square). -/
def kcMove : GameMove := GameMove.new 4 7 MoveType.KingCastle

/-- Witness: a cleared flag stays cleared across a castle move. -/
theorem castlerights_one_way_witness :
    noRightsState.castlerights 0 = false ∧
    ((noRightsState.make kcMove).getD GameState.new_empty).castlerights 0 = false := by
  refine ⟨rfl, ?_⟩
  exact castlerights_one_way noRightsState kcMove _ 0 rfl rfl

/-- C10: a castling move returns before the en-passant recomputation, so
a set en-passant target survives a castle unchanged, while every
non-castling move recomputes the target (none unless the move is a
double pawn push). -/
theorem ep_frame_across_make (st : GameState) (m : GameMove) (st2 : GameState)
    (hmk : st.make m = some st2) :
    (∀ t, st.ep_square = some t →
      (m.moveType = MoveType.QueenCastle ∨ m.moveType = MoveType.KingCastle) →
      st2.ep_square = some t) ∧
    (¬(m.moveType = MoveType.QueenCastle ∨ m.moveType = MoveType.KingCastle) →
      st2.ep_square =
        (if m.moveType = MoveType.DoublePawnPush then
          (if st.white_to_move then some (m.tosquare - 8) else some (m.tosquare + 8))
         else none)) := by
  constructor
  · intro t ht hc
    have hspec := make_castle_spec st m st2 hc hmk
    subst hspec
    show (castleS4 st m).ep_square = some t
    rw [(castleS4_meta st m).2.1]
    exact ht
  · intro hc
    obtain ⟨moving, s1, s4, hmv, hs1, hsplit, rfl⟩ := make_nonCastle_spec st m st2 hc hmk
    rfl

/-- State with an en-passant target set, used as a concrete witness
input. -/
def epTargetState : GameState :=
  GameState.new (fun _ => 0) true (some 20) 0 1 (fun _ => true)

/-- Witness: the stale target 20 survives a white kingside castle. -/
theorem ep_frame_across_make_witness :
    epTargetState.ep_square = some 20 ∧
    ((epTargetState.make kcMove).getD GameState.new_empty).ep_square = some 20 := by
  refine ⟨rfl, ?_⟩
  exact (ep_frame_across_make epTargetState kcMove _ rfl).1 20 rfl (Or.inr rfl)

/-- C7: the half-move clock becomes 0 exactly on captures and pawn
moves and otherwise increments (castling always increments), and the
full-move counter increments exactly after black's move. -/
theorem clock_bookkeeping (st : GameState) (m : GameMove) (st2 : GameState)
    (hmk : st.make m = some st2) :
    ((m.moveType = MoveType.QueenCastle ∨ m.moveType = MoveType.KingCastle) →
      st2.halfmove_clock = st.halfmove_clock + 1) ∧
    (¬(m.moveType = MoveType.QueenCastle ∨ m.moveType = MoveType.KingCastle) →
      ∀ p, st.occupying_piece m.fromsquare = some p →
      st2.halfmove_clock =
        (if m.isCapture || (decide (p = Piece.WhitePawn) ||
            decide (p = Piece.BlackPawn)) then 0
         else st.halfmove_clock + 1)) ∧
    st2.fullmove_clock =
      (if st.white_to_move then st.fullmove_clock else st.fullmove_clock + 1) := by
  by_cases hc : m.moveType = MoveType.QueenCastle ∨ m.moveType = MoveType.KingCastle
  · have hspec := make_castle_spec st m st2 hc hmk
    subst hspec
    exact ⟨fun _ => rfl, fun hcon => absurd hc hcon, rfl⟩
  · obtain ⟨moving, s1, s4, hmv, hs1, hsplit, rfl⟩ := make_nonCastle_spec st m st2 hc hmk
    refine ⟨fun hcon => absurd hcon hc, ?_, rfl⟩
    intro _ p hp
    rw [hmv] at hp
    obtain rfl := Option.some.inj hp
    rfl

/-- The board with a single white knight on square 1, and its quiet
development move, used as concrete witness inputs. -/
def knightState : GameState := GameState.new_empty.add_piece Piece.WhiteKnight 1

/-- Quiet knight move b1 to c3 for the witnesses. -/
def knightMove : GameMove := GameMove.new 1 18 MoveType.Quiet

/-- Witness: a quiet knight move increments the half-move clock and
leaves white's full-move counter unchanged. -/
theorem clock_bookkeeping_witness :
    ((knightState.make knightMove).getD GameState.new_empty).halfmove_clock = 1 ∧
    ((knightState.make knightMove).getD GameState.new_empty).fullmove_clock = 1 := by
  have h := clock_bookkeeping knightState knightMove
    ((knightState.make knightMove).getD GameState.new_empty) rfl
  refine ⟨?_, h.2.2⟩
  have h2 := h.2.1 (by decide) Piece.WhiteKnight rfl
  simpa using h2

/-- C6: after any castle, both rights flags of the moving side are
false regardless of their prior values, the king has moved from its
home square to the fixed castle destination, the rook from its home
square to its fixed post-castle square, and the side to move is
flipped. -/
theorem castle_postconditions (st : GameState) (m : GameMove) (st2 : GameState)
    (hc : m.moveType = MoveType.QueenCastle ∨ m.moveType = MoveType.KingCastle)
    (hmk : st.make m = some st2) :
    st2.castlerights (castleColorFlag st.white_to_move) = false ∧
    st2.castlerights (castleColorFlag st.white_to_move + 1) = false ∧
    st2.occupying_piece (castleKingFrom st.white_to_move) = none ∧
    st2.occupying_piece (castleKingTo m.moveType st.white_to_move)
      = some (castleKingPiece st.white_to_move) ∧
    st2.occupying_piece (castleRookFrom m.moveType st.white_to_move) = none ∧
    st2.occupying_piece (castleRookTo m.moveType st.white_to_move)
      = some (castleRookPiece st.white_to_move) ∧
    st2.white_to_move = !st.white_to_move := by
  have hspec := make_castle_spec st m st2 hc hmk
  subst hspec
  have hpc := castle_pieces_ne_null st.white_to_move
  refine ⟨?_, ?_, ?_, ?_, ?_, ?_, rfl⟩
  · show updFn (updFn (castleS4 st m).castlerights (castleColorFlag st.white_to_move)
        false) (castleColorFlag st.white_to_move + 1) false
      (castleColorFlag st.white_to_move) = false
    unfold updFn
    split
    · rfl
    · rw [if_pos rfl]
  · show updFn (updFn (castleS4 st m).castlerights (castleColorFlag st.white_to_move)
        false) (castleColorFlag st.white_to_move + 1) false
      (castleColorFlag st.white_to_move + 1) = false
    unfold updFn
    rw [if_pos rfl]
  all_goals show (castleS4 st m).occupying_piece _ = _
  all_goals unfold castleS4 castleS3 castleS2 castleS1
  all_goals rw [occupying_add _ _ _ hpc.2, occupying_remove,
    occupying_add _ _ _ hpc.1, occupying_remove]
  all_goals rcases hc with h | h <;> rw [h] <;> cases hw : st.white_to_move <;>
    simp [castleKingFrom, castleKingTo, castleRookFrom, castleRookTo,
      castleKingPiece, castleRookPiece, hw]

/-- Witness: a white kingside castle out of the empty board lands the
king on 6 and the rook on 5, clears both white flags, empties 4 and 7,
and gives black the move. -/
theorem castle_postconditions_witness :
    ((GameState.new_empty.make kcMove).getD GameState.new_empty).castlerights 0
      = false ∧
    ((GameState.new_empty.make kcMove).getD GameState.new_empty).castlerights 1
      = false ∧
    ((GameState.new_empty.make kcMove).getD GameState.new_empty).occupying_piece 4
      = none ∧
    ((GameState.new_empty.make kcMove).getD GameState.new_empty).occupying_piece 6
      = some Piece.WhiteKing ∧
    ((GameState.new_empty.make kcMove).getD GameState.new_empty).occupying_piece 7
      = none ∧
    ((GameState.new_empty.make kcMove).getD GameState.new_empty).occupying_piece 5
      = some Piece.WhiteRook ∧
    ((GameState.new_empty.make kcMove).getD GameState.new_empty).white_to_move
      = false := by
  have h := castle_postconditions GameState.new_empty kcMove
    ((GameState.new_empty.make kcMove).getD GameState.new_empty) (Or.inr rfl) rfl
  exact h

/-- The capture stage of an en-passant capture removes the occupant of
the shifted target square. -/
theorem makeStage1_ep (st : GameState) (m : GameMove) (t : Nat)
    (ht : st.ep_square = some t) (hmt : m.moveType = MoveType.EpCapture)
    {s1 : GameState} (hs1 : GameState.makeStage1 st m = some s1) :
    ∃ capSq, capSq = (if st.white_to_move then t + 8 else t - 8) ∧
      (st.white_to_move = false → 8 ≤ t) ∧ capSq < 64 ∧
      s1 = (st.remove_piece capSq).2 := by
  unfold GameState.makeStage1 at hs1
  rw [if_pos (isCapture_of_ep m hmt)] at hs1
  unfold GameState.capSqOf at hs1
  rw [if_pos hmt] at hs1
  unfold GameState.epCapSq at hs1
  simp only [ht] at hs1
  by_cases hw : st.white_to_move = true
  · rw [if_pos hw] at hs1
    simp only [Option.bind_eq_bind, Option.some_bind] at hs1
    split at hs1
    · refine ⟨t + 8, by rw [if_pos hw], ?_, by assumption,
        (Option.some.inj hs1).symm⟩
      intro hf
      rw [hf] at hw
      cases hw
    · cases hs1
  · have hw2 : st.white_to_move = false := by
      revert hw
      cases st.white_to_move <;> simp
    rw [if_neg hw] at hs1
    split at hs1
    · simp only [Option.bind_eq_bind, Option.some_bind] at hs1
      split at hs1
      · exact ⟨t - 8, by rw [if_neg hw], fun _ => by assumption, by assumption,
          (Option.some.inj hs1).symm⟩
      · cases hs1
    · simp only [Option.bind_eq_bind, Option.none_bind] at hs1
      cases hs1

/-- C5: an en-passant capture with target t removes the occupant of
t + 8 (white to move) or t - 8 (black to move) — not of the destination
square — places the moving piece on the destination square, and resets
the half-move clock. -/
theorem ep_capture_geometry (st : GameState) (m : GameMove) (st2 : GameState)
    (t : Nat) (p : Piece)
    (ht : st.ep_square = some t)
    (hmt : m.moveType = MoveType.EpCapture)
    (hto : m.tosquare = t)
    (hp : st.occupying_piece m.fromsquare = some p)
    (hmk : st.make m = some st2) :
    st2.occupying_piece (if st.white_to_move then t + 8 else t - 8) = none ∧
    st2.occupying_piece t = some p ∧
    st2.halfmove_clock = 0 := by
  have hc : ¬(m.moveType = MoveType.QueenCastle ∨ m.moveType = MoveType.KingCastle) := by
    rw [hmt]
    decide
  obtain ⟨moving, s1, s4, hmv, hs1, hsplit, rfl⟩ := make_nonCastle_spec st m st2 hc hmk
  have hmvp : moving = p := by
    rw [hmv] at hp
    exact Option.some.inj hp
  subst hmvp
  have hpnn : moving ≠ Piece.Null := occupying_ne_null _ _ _ hmv
  have hsp : m.isPromo = false ∧
      s4 = (s1.remove_piece m.fromsquare).2.add_piece moving m.tosquare := by
    rcases hsplit with h | ⟨pp, hpt, _, _⟩
    · exact h
    · rw [isPromo_of_ep m hmt] at hpt
      cases hpt
  obtain ⟨_, rfl⟩ := hsp
  obtain ⟨capSq, hcapv, hblack, hcaplt, rfl⟩ := makeStage1_ep st m t ht hmt hs1
  have hcapne : capSq ≠ t := by
    rw [hcapv]
    by_cases hw : st.white_to_move = true
    · rw [if_pos hw]
      omega
    · rw [if_neg hw]
      have h8 : 8 ≤ t := hblack (by revert hw; cases st.white_to_move <;> simp)
      omega
  refine ⟨?_, ?_, ?_⟩
  · show (((st.remove_piece capSq).2.remove_piece m.fromsquare).2.add_piece moving
        m.tosquare).occupying_piece (if st.white_to_move then t + 8 else t - 8) = none
    rw [← hcapv, occupying_add _ _ _ hpnn,
      if_neg (fun hh : capSq = m.tosquare => hcapne (hh.trans hto)),
      occupying_remove, occupying_remove]
    split
    · rfl
    · rw [if_pos rfl]
  · show (((st.remove_piece capSq).2.remove_piece m.fromsquare).2.add_piece moving
        m.tosquare).occupying_piece t = some moving
    rw [occupying_add _ _ _ hpnn, if_pos hto.symm]
  · show (if (m.isCapture || (decide (moving = Piece.WhitePawn) ||
        decide (moving = Piece.BlackPawn))) = true then 0
      else st.halfmove_clock + 1) = 0
    rw [isCapture_of_ep m hmt]
    rfl

/-- Board with a white pawn on 36, a black pawn on 51 and en-passant
target 43 — the spec's concrete en-passant example. -/
def epCaptureState : GameState :=
  { (GameState.new_empty.add_piece Piece.WhitePawn 36).add_piece Piece.BlackPawn 51 with
    ep_square := some 43 }

/-- The en-passant capture from 36 to the target square 43. -/
def epCaptureMove : GameMove := GameMove.new 36 43 MoveType.EpCapture

/-- Witness: white capturing en passant from 36 to 43 with target 43
removes the piece on 43 + 8 = 51, lands the pawn on 43, and resets the
half-move clock. -/
theorem ep_capture_geometry_witness :
    ((epCaptureState.make epCaptureMove).getD GameState.new_empty).occupying_piece 51
      = none ∧
    ((epCaptureState.make epCaptureMove).getD GameState.new_empty).occupying_piece 43
      = some Piece.WhitePawn ∧
    ((epCaptureState.make epCaptureMove).getD GameState.new_empty).halfmove_clock
      = 0 := by
  have h := ep_capture_geometry epCaptureState epCaptureMove
    ((epCaptureState.make epCaptureMove).getD GameState.new_empty) 43 Piece.WhitePawn
    rfl rfl rfl rfl rfl
  exact h

/-! ## Evaluations of the codec and stack bugs at concrete inputs. -/

/-- C1: the textual-codec round-trip law fails on the code.  The
concrete starting-record instance does hold, but from the starting
position white's double pawn push 12 to 28 (a make-reachable position)
leaves en-passant target 20, and serializing then re-parsing that
position yields target 36: the serializer derives the rank character of
the en-passant field from the file index (fen.rs line 109), so the
round trip is not the identity. -/
theorem fen_round_trip_violation :
    (parse_fen STARTING_FEN).map to_fen = some STARTING_FEN ∧
    ((parse_fen STARTING_FEN).bind
        (fun p => p.make (GameMove.new 12 28 MoveType.DoublePawnPush))).map
      GameState.ep_square = some (some 20) ∧
    (((parse_fen STARTING_FEN).bind
        (fun p => p.make (GameMove.new 12 28 MoveType.DoublePawnPush))).bind
      (fun p => parse_fen (to_fen p))).map GameState.ep_square = some (some 36) := by
  refine ⟨rfl, rfl, rfl⟩

/-- C2: pop takes the wrong slot.  Pop on the empty stack returns no
value (as the claim states), but pop on the stack holding exactly one
pushed state also returns no value — the source swaps the slot at index
size, one above the top — and the pushed element is still in the
backing array afterwards, so pop neither returns nor removes the
top. -/
theorem pop_wrong_slot :
    (StateStack.new.pop).map (fun pr => pr.1.isSome) = some false ∧
    (StateStack.new.push GameState.new_empty).map StateStack.size = some 1 ∧
    ((StateStack.new.push GameState.new_empty).bind StateStack.pop).map
      (fun pr => pr.1.isSome) = some false ∧
    ((StateStack.new.push GameState.new_empty).bind StateStack.pop).map
      (fun pr => (pr.2.backing 0).isSome) = some true := by
  refine ⟨rfl, rfl, rfl, rfl⟩

/-- Board with only the white rook on h1 (square 7), full rights. -/
def rookH1State : GameState := GameState.new_empty.add_piece Piece.WhiteRook 7

/-- Quiet white rook move h1 to h3. -/
def rookH1Move : GameMove := GameMove.new 7 23 MoveType.Quiet

/-- Board with only the black rook on h8 (square 63), black to move,
full rights. -/
def rookH8State : GameState :=
  { GameState.new_empty.add_piece Piece.BlackRook 63 with white_to_move := false }

/-- Quiet black rook move h8 to h6. -/
def rookH8Move : GameMove := GameMove.new 63 47 MoveType.Quiet

/-- Board with the white rook on h1 where white retains only the
kingside right (flag 0, 'K'). -/
def rookOnlyKState : GameState :=
  { GameState.new_empty.add_piece Piece.WhiteRook 7 with
    castlerights := fun i => i == 0 }

/-- C3: rook-move castling-rights invalidation diverges from the claim.
Moving the white rook from h1 (square 7) clears flag 1 ('Q', white
queenside) instead of flag 0 ('K', the codec flag of h1); moving the
black rook from h8 (square 63) clears flag 3 ('q') instead of flag 2
('k'); and when white retains only the kingside right, the guard —
which reads flag cf+1 twice and never flag cf — skips the update
entirely, leaving all four flags unchanged. -/
theorem rook_rights_invalidation_bug :
    (rookH1State.make rookH1Move).map
        (fun s => (s.castlerights 0, s.castlerights 1,
          s.castlerights 2, s.castlerights 3))
      = some (true, false, true, true) ∧
    (rookH8State.make rookH8Move).map
        (fun s => (s.castlerights 0, s.castlerights 1,
          s.castlerights 2, s.castlerights 3))
      = some (true, true, true, false) ∧
    (rookOnlyKState.make rookH1Move).map
        (fun s => (s.castlerights 0, s.castlerights 1,
          s.castlerights 2, s.castlerights 3))
      = some (true, false, false, false) := by
  refine ⟨rfl, rfl, rfl⟩

/-- Empty board with en-passant target 43. -/
def epSer43State : GameState := { GameState.new_empty with ep_square := some 43 }

/-- C4: the en-passant field codec diverges from the claim.  Parsing the
file-letter + rank-digit pair "d6" (the claim maps it to square
5*8+3 = 43) aborts, because the first character is looked up in the
digit table; serializing a position with target 43 emits "4d" — both
characters derived from the file index 3, the rank lookup reusing
utils::file_idx (fen.rs line 109) — and re-parsing "4d" yields square
27, not 43, so the field does not round-trip. -/
theorem ep_field_codec_bug :
    ep_square_from ('d' :: ['6']) = none ∧
    ser_ep_square epSer43State = '4' :: ['d'] ∧
    ep_square_from ('4' :: ['d']) = some (some 27) := by
  refine ⟨rfl, rfl, rfl⟩

end Bongcloud
